import Mathlib

/-!
Verification of the regional health-facility dashboard
(`pages/00_수행평가.py`).

The page loads a CSV with a region column (시도) and a facility-type
column (기관유형), lists the distinct regions with
`sorted(df['시도'].unique().tolist())`, filters the frame to the selected
region, aggregates with `value_counts()` followed by
`sort_values(by='기관_수', ascending=False)`, and builds a bar-color list:
the top row is `'red'`, the remaining rows take successive entries of
`px.colors.sequential.Blues_r` truncated to `n-1` entries, with
`'#4c78a8'` as the fallback once the palette prefix is exhausted.

Embedding notes:
* A CSV cell is `Option String`; `none` models a pandas `NaN`.
* `Series.unique` returns values in order of first appearance; it is
  modelled by `uniqueList`.
* Both `Series.sort_values(ascending=False)` (inside `value_counts`) and
  `DataFrame.sort_values(ascending=False)` compute a stable ascending
  argsort and reverse it (`nargsort` applies `argsort(kind)[::-1]`; numpy's
  sort on the small frames at hand is insertion sort, which is stable).
  This is modelled by `sort_values_desc`.
* `value_counts` drops `NaN` and emits keys in first-appearance order
  before sorting.
* Python's `sorted` compares with `<`; comparing a `str` with the float
  `nan` raises `TypeError`. The fallible comparison is modelled by
  `pyLt` returning `none` on a mixed comparison, and `pySorted` propagates
  the failure. String comparison in Python is lexicographic on code
  points, which coincides with `List.lt` on `String.data`.
-/

namespace Dashboard

/-- One row of the loaded CSV, keeping the two columns the analysis uses.
`sido` is the 시도 (region) column, `gigwanYuhyeong` the 기관유형
(facility type) column; `none` models a missing cell (pandas `NaN`). -/
structure Record where
  sido : Option String
  gigwanYuhyeong : Option String
deriving DecidableEq

/-- First-appearance deduplication with an accumulator of already seen
values; models the order in which pandas hash-table based `unique` and
`value_counts` emit their keys. -/
def uniqueAux [DecidableEq α] (seen : List α) : List α → List α
  | [] => []
  | x :: xs => if x ∈ seen then uniqueAux seen xs else x :: uniqueAux (x :: seen) xs

/-- Model of pandas `Series.unique`: distinct values in order of first
appearance. -/
def uniqueList [DecidableEq α] (l : List α) : List α := uniqueAux [] l

/-- Stable insertion of a keyed row into a list sorted ascending by count:
the new row goes in front of the first row whose count is not smaller. -/
def insertByCount (a : String × Nat) : List (String × Nat) → List (String × Nat)
  | [] => [a]
  | b :: l => if a.2 ≤ b.2 then a :: b :: l else b :: insertByCount a l

/-- Stable ascending sort by count (insertion sort). -/
def sortByCountAsc : List (String × Nat) → List (String × Nat)
  | [] => []
  | x :: xs => insertByCount x (sortByCountAsc xs)

/-- Model of pandas `sort_values(ascending=False)` on a count column:
`nargsort` computes the stable ascending argsort and reverses it, so ties
end up in reverse order of their input positions. -/
def sort_values_desc (l : List (String × Nat)) : List (String × Nat) :=
  (sortByCountAsc l).reverse

/-- The 기관유형 column of the frame filtered to the selected region
(`filtered_df['기관유형']`), with `NaN` cells removed as `value_counts`
does (`dropna=True` is the default). -/
def facility_type_col (df : List Record) (selected_sido : String) : List String :=
  (df.filter (fun r => r.sido == some selected_sido)).filterMap (·.gigwanYuhyeong)

/-- The un-sorted content of `value_counts()`: each distinct non-null
facility type, in order of first appearance, with its number of
occurrences. -/
def value_counts_pairs (df : List Record) (selected_sido : String) : List (String × Nat) :=
  (uniqueList (facility_type_col df selected_sido)).map
    (fun k => (k, (facility_type_col df selected_sido).count k))

/-- Model of `filtered_df['기관유형'].value_counts()`: the pair list
sorted descending by count (pandas sorts the counted keys with
`sort_values(ascending=False)`). -/
def value_counts (df : List Record) (selected_sido : String) : List (String × Nat) :=
  sort_values_desc (value_counts_pairs df selected_sido)

/-- Model of `type_counts`: the `value_counts` frame sorted again with
`sort_values(by='기관_수', ascending=False)` (line 56 of the page). The
`reset_index` steps only rename columns and are identities here. -/
def type_counts (df : List Record) (selected_sido : String) : List (String × Nat) :=
  sort_values_desc (value_counts df selected_sido)

/-- `px.colors.sequential.Blues_r`: the nine colorbrewer Blues, reversed
(darkest first). -/
def Blues_r : List String :=
  ["rgb(8,48,107)", "rgb(8,81,156)", "rgb(33,113,181)", "rgb(66,146,198)",
   "rgb(107,174,214)", "rgb(158,202,225)", "rgb(198,219,239)",
   "rgb(222,235,247)", "rgb(247,251,255)"]

/-- `top_type = type_counts.iloc[0]['기관유형']` (only read on a non-empty
frame; the default is irrelevant). -/
def top_type (tc : List (String × Nat)) : String := (tc.headD ("", 0)).1

/-- `blue_gradient_colors = px.colors.sequential.Blues_r[:num_other_bars]`
(for `num_other_bars = 0` the code sets `[]`, which `take 0` also gives). -/
def blue_gradient_colors (num_other_bars : Nat) : List String :=
  Blues_r.take num_other_bars

/-- The color-building loop over `type_counts.iterrows()`: `j` counts the
non-top rows consumed so far; a top row appends `'red'`, any other row
appends `blue_gradient_colors[j]` when `j` is in range and the fallback
`'#4c78a8'` otherwise. -/
def colorsAux (top : String) (grad : List String) : List (String × Nat) → Nat → List String
  | [], _ => []
  | row :: rows, j =>
    if row.1 = top then "red" :: colorsAux top grad rows j
    else grad.getD j "#4c78a8" :: colorsAux top grad rows (j + 1)

/-- The final `colors` list for a `type_counts` frame. -/
def colors (tc : List (String × Nat)) : List String :=
  colorsAux (top_type tc) (blue_gradient_colors (tc.length - 1)) tc 0

/-- What the page renders for a selected region: the chart (rows plus bar
colors) when `type_counts` is non-empty, otherwise the `st.warning`
no-data state. -/
inductive PageOutput
  | chart (rows : List (String × Nat)) (barColors : List String)
  | noData
deriving DecidableEq

/-- The `if not type_counts.empty: ... else: st.warning(...)` branch of the
page. -/
def render (df : List Record) (selected_sido : String) : PageOutput :=
  if (type_counts df selected_sido).isEmpty then PageOutput.noData
  else PageOutput.chart (type_counts df selected_sido) (colors (type_counts df selected_sido))

/-- Fallible Python comparison `a < b` between cells of the region column:
two strings compare lexicographically by code points, `nan < nan` is
`False`, and comparing a string with `nan` raises `TypeError` (`none`). -/
def pyLt : Option String → Option String → Option Bool
  | some a, some b => some (decide (a.data < b.data))
  | none, none => some false
  | _, _ => none

/-- Fallible stable insertion using Python's `<`: walk past the rows `y`
with `y < x` and insert in front of the first other one; any mixed
comparison aborts with `none` as `sorted` raises `TypeError`. -/
def pyInsert (x : Option String) : List (Option String) → Option (List (Option String))
  | [] => some [x]
  | y :: ys =>
    match pyLt y x with
    | none => none
    | some true => (pyInsert x ys).map (y :: ·)
    | some false => some (x :: y :: ys)

/-- Model of Python's `sorted` on the mixed string/`nan` list: a stable
insertion sort that fails exactly when a string is compared with `nan`. -/
def pySorted : List (Option String) → Option (List (Option String))
  | [] => some []
  | x :: xs => (pySorted xs).bind (pyInsert x)

/-- `all_sidos = sorted(df['시도'].unique().tolist())` (line 39): `none`
when the sort raises `TypeError`. -/
def all_sidos (df : List Record) : Option (List (Option String)) :=
  pySorted (uniqueList (df.map (·.sido)))

/-- Plain insertion sort on strings mirroring `pyInsert` on all-string
input; used to describe the successful runs of `pySorted`. -/
def strInsert (a : String) : List String → List String
  | [] => [a]
  | b :: l => if b.data < a.data then b :: strInsert a l else a :: b :: l

/-- Plain stable insertion sort on strings. -/
def strSort : List String → List String
  | [] => []
  | x :: xs => strInsert x (strSort xs)

/-- A dataset of well-formed records: both the region and the
facility-type cell hold a string, as in the spec's data model
(`FacilityRecord` has `region: string` and `facilityType: string`). -/
def WellFormed (df : List Record) : Prop :=
  ∀ r ∈ df, r.sido ≠ none ∧ r.gigwanYuhyeong ≠ none

instance (df : List Record) : Decidable (WellFormed df) :=
  inferInstanceAs (Decidable (∀ r ∈ df, r.sido ≠ none ∧ r.gigwanYuhyeong ≠ none))

/-- A derived aggregation row as the spec describes it. -/
structure AggregatedRow where
  facilityType : String
  count : Nat
  percentageOfRegion : ℚ
  roundedPercentage : ℚ
deriving DecidableEq

/-- The spec's `totalForRegion`: the sum of the per-type counts of the
region's aggregated rows. -/
def totalForRegion (df : List Record) (selected_sido : String) : Nat :=
  ((type_counts df selected_sido).map (·.2)).sum

/-- Rounding to two decimal places. -/
def roundTo2 (q : ℚ) : ℚ := (round (q * 100) : ℚ) / 100

/-- Modelled from the spec: the page under `src` computes no percentages
(the repository's other, near-identical script is not under `src`), so the
percentage fields follow the spec's words directly:
`percentageOfRegion = 100 * count / totalForRegion`, and the rounded copy
is kept separately from the precise value (§4.1 of the spec). The
`facilityType`/`count` part is the source's `type_counts`. -/
def aggregate (df : List Record) (selected_sido : String) : List AggregatedRow :=
  (type_counts df selected_sido).map fun p =>
    { facilityType := p.1
      count := p.2
      percentageOfRegion := 100 * (p.2 : ℚ) / (totalForRegion df selected_sido : ℚ)
      roundedPercentage :=
        roundTo2 (100 * (p.2 : ℚ) / (totalForRegion df selected_sido : ℚ)) }

/-- The palette-index formula claimed by the spec for the non-maximum row
at position `i` out of `n` rows with a palette of length `L`:
`round(i * (L-1) / (n-2))`. -/
def spec_palette_index (i L n : Nat) : ℤ :=
  round (((i : ℚ) * ((L : ℚ) - 1)) / ((n : ℚ) - 2))

end Dashboard

namespace Dashboard

theorem mem_uniqueAux [DecidableEq α] {seen l : List α} {a : α} :
    a ∈ uniqueAux seen l ↔ a ∈ l ∧ a ∉ seen := by
  induction l generalizing seen with
  | nil => simp [uniqueAux]
  | cons x xs ih =>
    by_cases hx : x ∈ seen
    · rw [uniqueAux, if_pos hx, ih]
      constructor
      · rintro ⟨h1, h2⟩
        exact ⟨List.mem_cons_of_mem _ h1, h2⟩
      · rintro ⟨h1, h2⟩
        rcases List.mem_cons.mp h1 with rfl | h1
        · exact absurd hx h2
        · exact ⟨h1, h2⟩
    · rw [uniqueAux, if_neg hx]
      simp only [List.mem_cons, ih]
      constructor
      · rintro (rfl | ⟨h1, h2⟩)
        · exact ⟨Or.inl rfl, hx⟩
        · exact ⟨Or.inr h1, fun hs => h2 (Or.inr hs)⟩
      · rintro ⟨rfl | h1, h2⟩
        · exact Or.inl rfl
        · by_cases hax : a = x
          · exact Or.inl hax
          · exact Or.inr ⟨h1, by simp [List.mem_cons, hax, h2]⟩

theorem mem_uniqueList [DecidableEq α] {l : List α} {a : α} :
    a ∈ uniqueList l ↔ a ∈ l := by
  rw [uniqueList, mem_uniqueAux]
  simp

theorem nodup_uniqueAux [DecidableEq α] (seen l : List α) :
    (uniqueAux seen l).Nodup := by
  induction l generalizing seen with
  | nil => exact List.nodup_nil
  | cons x xs ih =>
    by_cases hx : x ∈ seen
    · rw [uniqueAux, if_pos hx]
      exact ih seen
    · rw [uniqueAux, if_neg hx]
      refine List.nodup_cons.mpr ⟨fun hmem => ?_, ih (x :: seen)⟩
      exact (mem_uniqueAux.mp hmem).2 (List.mem_cons_self x seen)

theorem nodup_uniqueList [DecidableEq α] (l : List α) : (uniqueList l).Nodup :=
  nodup_uniqueAux [] l

theorem sum_map_add_nat (K : List α) (f g : α → Nat) :
    (K.map fun k => f k + g k).sum = (K.map f).sum + (K.map g).sum := by
  induction K with
  | nil => rfl
  | cons k K ih => simp only [List.map_cons, List.sum_cons, ih]; omega

theorem sum_map_ite_zero (a : String) (K : List String) (h : a ∉ K) :
    (K.map fun k => if (a == k) = true then 1 else 0).sum = 0 := by
  apply List.sum_eq_zero
  intro x hx
  rcases List.mem_map.mp hx with ⟨k, hk, rfl⟩
  have : ¬ (a == k) = true := by
    simp only [beq_iff_eq]
    rintro rfl
    exact h hk
  simp [this]

theorem sum_map_ite_one {a : String} (K : List String) (hK : K.Nodup) (ha : a ∈ K) :
    (K.map fun k => if (a == k) = true then 1 else 0).sum = 1 := by
  induction K with
  | nil => cases ha
  | cons k K ih =>
    rcases List.nodup_cons.mp hK with ⟨hk, hK2⟩
    rcases List.mem_cons.mp ha with rfl | ha2
    · rw [List.map_cons, List.sum_cons, if_pos (beq_self_eq_true a),
        sum_map_ite_zero a K hk]
    · have hne : ¬ (a == k) = true := by
        simp only [beq_iff_eq]
        rintro rfl
        exact hk ha2
      rw [List.map_cons, List.sum_cons, if_neg hne, ih hK2 ha2]

theorem sum_map_count {K v : List String} (hK : K.Nodup) (hv : ∀ a ∈ v, a ∈ K) :
    (K.map fun k => v.count k).sum = v.length := by
  induction v with
  | nil =>
    apply List.sum_eq_zero
    intro x hx
    rcases List.mem_map.mp hx with ⟨k, _, rfl⟩
    simp
  | cons a v ih =>
    have hv2 : ∀ b ∈ v, b ∈ K := fun b hb => hv b (List.mem_cons_of_mem _ hb)
    have ha : a ∈ K := hv a (List.mem_cons_self _ _)
    have hcongr : (K.map fun k => (a :: v).count k)
        = K.map fun k => v.count k + if (a == k) = true then 1 else 0 := by
      apply List.map_congr_left
      intro k _
      rw [List.count_cons]
    rw [hcongr, sum_map_add_nat, ih hv2, sum_map_ite_one K hK ha, List.length_cons]

theorem insertByCount_perm (a : String × Nat) (l : List (String × Nat)) :
    List.Perm (insertByCount a l) (a :: l) := by
  induction l with
  | nil => exact List.Perm.refl _
  | cons b m ih =>
    rw [insertByCount]
    by_cases h : a.2 ≤ b.2
    · rw [if_pos h]
    · rw [if_neg h]
      exact (ih.cons b).trans (List.Perm.swap a b m)

theorem sortByCountAsc_perm (l : List (String × Nat)) :
    List.Perm (sortByCountAsc l) l := by
  induction l with
  | nil => exact List.Perm.refl _
  | cons x xs ih =>
    exact (insertByCount_perm x (sortByCountAsc xs)).trans (ih.cons x)

theorem pairwise_insertByCount {l : List (String × Nat)} (a : String × Nat)
    (h : l.Pairwise (fun p q => p.2 ≤ q.2)) :
    (insertByCount a l).Pairwise (fun p q => p.2 ≤ q.2) := by
  induction l with
  | nil => simp [insertByCount]
  | cons b m ih =>
    rcases List.pairwise_cons.mp h with ⟨hb, hm⟩
    rw [insertByCount]
    by_cases hab : a.2 ≤ b.2
    · rw [if_pos hab]
      refine List.pairwise_cons.mpr ⟨?_, h⟩
      intro c hc
      rcases List.mem_cons.mp hc with rfl | hc
      · exact hab
      · exact le_trans hab (hb c hc)
    · rw [if_neg hab]
      refine List.pairwise_cons.mpr ⟨?_, ih hm⟩
      intro c hc
      rcases List.mem_cons.mp ((insertByCount_perm a m).mem_iff.mp hc) with rfl | hc
      · exact le_of_not_le hab
      · exact hb c hc

theorem pairwise_sortByCountAsc (l : List (String × Nat)) :
    (sortByCountAsc l).Pairwise (fun p q => p.2 ≤ q.2) := by
  induction l with
  | nil => simp [sortByCountAsc]
  | cons x xs ih => exact pairwise_insertByCount x ih

theorem filter_insertByCount (a : String × Nat) (l : List (String × Nat)) (c : Nat) :
    (insertByCount a l).filter (fun p => p.2 == c)
      = if a.2 = c then a :: l.filter (fun p => p.2 == c)
        else l.filter (fun p => p.2 == c) := by
  induction l with
  | nil => by_cases h : a.2 = c <;> simp [insertByCount, List.filter_cons, h]
  | cons b m ih =>
    rw [insertByCount]
    by_cases hab : a.2 ≤ b.2
    · rw [if_pos hab]
      by_cases hac : a.2 = c <;> simp [List.filter_cons, hac]
    · rw [if_neg hab]
      have hba : b.2 < a.2 := Nat.lt_of_not_le (fun h => hab h)
      by_cases hac : a.2 = c
      · have hbc : ¬ b.2 = c := by omega
        simp [List.filter_cons, hbc, ih, hac]
      · by_cases hbc : b.2 = c <;> simp [List.filter_cons, hbc, ih, hac]

theorem filter_sortByCountAsc (l : List (String × Nat)) (c : Nat) :
    (sortByCountAsc l).filter (fun p => p.2 == c) = l.filter (fun p => p.2 == c) := by
  induction l with
  | nil => rfl
  | cons x xs ih =>
    rw [sortByCountAsc, filter_insertByCount]
    by_cases hx : x.2 = c
    · simp [List.filter_cons, hx, ih]
    · simp [List.filter_cons, hx, ih]

theorem sort_values_desc_perm (l : List (String × Nat)) :
    List.Perm (sort_values_desc l) l :=
  (List.reverse_perm _).trans (sortByCountAsc_perm l)

theorem pairwise_sort_values_desc (l : List (String × Nat)) :
    (sort_values_desc l).Pairwise (fun p q => q.2 ≤ p.2) := by
  rw [sort_values_desc, List.pairwise_reverse]
  exact pairwise_sortByCountAsc l

theorem filter_sort_values_desc (l : List (String × Nat)) (c : Nat) :
    (sort_values_desc l).filter (fun p => p.2 == c)
      = (l.filter (fun p => p.2 == c)).reverse := by
  rw [sort_values_desc, List.filter_reverse, filter_sortByCountAsc]

theorem type_counts_perm (df : List Record) (s : String) :
    List.Perm (type_counts df s) (value_counts_pairs df s) :=
  (sort_values_desc_perm _).trans (sort_values_desc_perm _)

theorem type_counts_pairwise (df : List Record) (s : String) :
    (type_counts df s).Pairwise (fun p q => q.2 ≤ p.2) :=
  pairwise_sort_values_desc _

theorem type_counts_filter (df : List Record) (s : String) (c : Nat) :
    (type_counts df s).filter (fun p => p.2 == c)
      = (value_counts_pairs df s).filter (fun p => p.2 == c) := by
  rw [type_counts, filter_sort_values_desc, value_counts, filter_sort_values_desc,
    List.reverse_reverse]

theorem value_counts_pairs_keys (df : List Record) (s : String) :
    (value_counts_pairs df s).map (·.1) = uniqueList (facility_type_col df s) := by
  rw [value_counts_pairs, List.map_map]
  have hcomp : ((·.1) ∘ fun k => (k, (facility_type_col df s).count k))
      = fun k : String => k := rfl
  rw [hcomp, List.map_id']

theorem type_counts_keys_nodup (df : List Record) (s : String) :
    ((type_counts df s).map (·.1)).Nodup := by
  have hperm := (type_counts_perm df s).map (·.1)
  rw [value_counts_pairs_keys] at hperm
  exact hperm.nodup_iff.mpr (nodup_uniqueList _)

theorem sum_snd_value_counts_pairs (df : List Record) (s : String) :
    ((value_counts_pairs df s).map (·.2)).sum = (facility_type_col df s).length := by
  rw [value_counts_pairs, List.map_map]
  have hcomp : ((·.2) ∘ fun k => (k, (facility_type_col df s).count k))
      = fun k => (facility_type_col df s).count k := rfl
  rw [hcomp]
  exact sum_map_count (nodup_uniqueList _) (fun a ha => mem_uniqueList.mpr ha)

theorem sum_snd_type_counts (df : List Record) (s : String) :
    ((type_counts df s).map (·.2)).sum = (facility_type_col df s).length := by
  rw [((type_counts_perm df s).map (·.2)).sum_eq, sum_snd_value_counts_pairs]

theorem colorsAux_length (top : String) (grad : List String) (l : List (String × Nat)) (j : Nat) :
    (colorsAux top grad l j).length = l.length := by
  induction l generalizing j with
  | nil => rfl
  | cons row rows ih =>
    rw [colorsAux]
    by_cases h : row.1 = top
    · rw [if_pos h, List.length_cons, ih, List.length_cons]
    · rw [if_neg h, List.length_cons, ih, List.length_cons]

theorem colorsAux_getElem (top : String) (grad : List String) {l : List (String × Nat)}
    (hl : ∀ r ∈ l, r.1 ≠ top) (i j : Nat) (hi : i < l.length) :
    (colorsAux top grad l j)[i]? = some (grad.getD (j + i) "#4c78a8") := by
  induction l generalizing i j with
  | nil => simp at hi
  | cons row rows ih =>
    have hrow : row.1 ≠ top := hl row (List.mem_cons_self _ _)
    rw [colorsAux, if_neg hrow]
    cases i with
    | zero => simp
    | succ i =>
      rw [List.getElem?_cons_succ,
        ih (fun r hr => hl r (List.mem_cons_of_mem _ hr)) i (j + 1)
          (by simpa using Nat.lt_of_succ_lt_succ (by simpa using hi))]
      have harith : j + 1 + i = j + (i + 1) := by omega
      rw [harith]

theorem colorsAux_mem {top : String} {grad : List String} {l : List (String × Nat)} {j : Nat}
    {c : String} (hc : c ∈ colorsAux top grad l j) :
    c = "red" ∨ c ∈ grad ∨ c = "#4c78a8" := by
  induction l generalizing j with
  | nil => cases hc
  | cons row rows ih =>
    rw [colorsAux] at hc
    by_cases h : row.1 = top
    · rw [if_pos h] at hc
      rcases List.mem_cons.mp hc with rfl | hc
      · exact Or.inl rfl
      · exact ih hc
    · rw [if_neg h] at hc
      rcases List.mem_cons.mp hc with rfl | hc
      · by_cases hj : j < grad.length
        · refine Or.inr (Or.inl ?_)
          rw [List.getD_eq_getElem grad _ hj]
          exact List.getElem_mem hj
        · exact Or.inr (Or.inr (List.getD_eq_default grad _ (Nat.le_of_not_lt hj)))
      · exact ih hc

theorem red_notMem_colorsAux {top : String} {grad : List String}
    (hgrad : ∀ g ∈ grad, g ≠ "red") {l : List (String × Nat)}
    (hl : ∀ r ∈ l, r.1 ≠ top) (j : Nat) : "red" ∉ colorsAux top grad l j := by
  induction l generalizing j with
  | nil => simp [colorsAux]
  | cons row rows ih =>
    have hrow : row.1 ≠ top := hl row (List.mem_cons_self _ _)
    rw [colorsAux, if_neg hrow]
    intro hmem
    rcases List.mem_cons.mp hmem with heq | hmem2
    · by_cases hj : j < grad.length
      · rw [List.getD_eq_getElem grad _ hj] at heq
        exact hgrad _ (List.getElem_mem hj) heq.symm
      · rw [List.getD_eq_default grad _ (Nat.le_of_not_lt hj)] at heq
        exact absurd heq (by decide)
    · exact ih (fun r hr => hl r (List.mem_cons_of_mem _ hr)) (j + 1) hmem2

theorem blues_ne_red : ∀ g ∈ Blues_r, g ≠ "red" := by decide

theorem blue_gradient_ne_red (n : Nat) : ∀ g ∈ blue_gradient_colors n, g ≠ "red" :=
  fun g hg => blues_ne_red g (List.mem_of_mem_take hg)

theorem colors_cons (h : String × Nat) (t : List (String × Nat)) :
    colors (h :: t) = "red" :: colorsAux h.1 (blue_gradient_colors t.length) t 0 := by
  rw [colors, top_type]
  simp only [List.headD_cons, List.length_cons, Nat.add_sub_cancel]
  rw [colorsAux, if_pos rfl]

theorem tail_keys_ne_head {df : List Record} {s : String} {h : String × Nat}
    {t : List (String × Nat)} (heq : type_counts df s = h :: t) :
    ∀ r ∈ t, r.1 ≠ h.1 := by
  have hnd := type_counts_keys_nodup df s
  rw [heq, List.map_cons] at hnd
  rcases List.nodup_cons.mp hnd with ⟨hnotmem, _⟩
  intro r hr hreq
  exact hnotmem (hreq ▸ List.mem_map_of_mem (·.1) hr)

theorem str_lt_iff (a b : String) : a.data < b.data ↔ a < b := by
  rw [String.lt_iff_toList_lt]
  exact Iff.rfl

theorem strInsert_perm (a : String) (l : List String) :
    List.Perm (strInsert a l) (a :: l) := by
  induction l with
  | nil => exact List.Perm.refl _
  | cons b m ih =>
    rw [strInsert]
    by_cases h : b.data < a.data
    · rw [if_pos h]
      exact (ih.cons b).trans (List.Perm.swap a b m)
    · rw [if_neg h]

theorem strSort_perm (l : List String) : List.Perm (strSort l) l := by
  induction l with
  | nil => exact List.Perm.refl _
  | cons x xs ih => exact (strInsert_perm x (strSort xs)).trans (ih.cons x)

theorem strInsert_pairwise {l : List String} (a : String)
    (h : l.Pairwise (· ≤ ·)) : (strInsert a l).Pairwise (· ≤ ·) := by
  induction l with
  | nil => simp [strInsert]
  | cons b m ih =>
    rcases List.pairwise_cons.mp h with ⟨hb, hm⟩
    rw [strInsert]
    by_cases hba : b.data < a.data
    · rw [if_pos hba]
      refine List.pairwise_cons.mpr ⟨?_, ih hm⟩
      intro c hc
      rcases List.mem_cons.mp ((strInsert_perm a m).mem_iff.mp hc) with rfl | hc
      · exact le_of_lt ((str_lt_iff b c).mp hba)
      · exact hb c hc
    · rw [if_neg hba]
      refine List.pairwise_cons.mpr ⟨?_, h⟩
      intro c hc
      have hab : a ≤ b := not_lt.mp (fun hlt => hba ((str_lt_iff b a).mpr hlt))
      rcases List.mem_cons.mp hc with rfl | hc
      · exact hab
      · exact le_trans hab (hb c hc)

theorem strSort_pairwise (l : List String) : (strSort l).Pairwise (· ≤ ·) := by
  induction l with
  | nil => simp [strSort]
  | cons x xs ih => exact strInsert_pairwise x ih

theorem pyInsert_map_some (a : String) (l : List String) :
    pyInsert (some a) (l.map some) = some ((strInsert a l).map some) := by
  induction l with
  | nil => rfl
  | cons b m ih =>
    rw [List.map_cons, pyInsert, strInsert]
    by_cases h : b.data < a.data
    · rw [if_pos h]
      simp only [pyLt, decide_eq_true h, ih, List.map_cons]
      rfl
    · rw [if_neg h]
      simp only [pyLt, decide_eq_false h, List.map_cons]

theorem pySorted_map_some (l : List String) :
    pySorted (l.map some) = some ((strSort l).map some) := by
  induction l with
  | nil => rfl
  | cons x xs ih =>
    rw [List.map_cons, pySorted, strSort, ih, Option.some_bind]
    exact pyInsert_map_some x (strSort xs)

theorem pyInsert_perm {x : Option String} {m m2 : List (Option String)}
    (h : pyInsert x m = some m2) : List.Perm m2 (x :: m) := by
  induction m generalizing m2 with
  | nil =>
    rw [pyInsert] at h
    cases h
    exact List.Perm.refl _
  | cons y ys ih =>
    rw [pyInsert] at h
    cases hlt : pyLt y x with
    | none => rw [hlt] at h; cases h
    | some b =>
      rw [hlt] at h
      cases b with
      | true =>
        cases hins : pyInsert x ys with
        | none => rw [hins] at h; cases h
        | some t =>
          rw [hins] at h
          cases h
          exact ((ih hins).cons y).trans (List.Perm.swap x y ys)
      | false =>
        cases h
        exact List.Perm.refl _

theorem pySorted_some_perm {l m : List (Option String)} (h : pySorted l = some m) :
    List.Perm m l := by
  induction l generalizing m with
  | nil =>
    rw [pySorted] at h
    cases h
    exact List.Perm.refl _
  | cons x xs ih =>
    rw [pySorted] at h
    cases hs : pySorted xs with
    | none => rw [hs] at h; cases h
    | some t =>
      rw [hs, Option.some_bind] at h
      exact (pyInsert_perm h).trans ((ih hs).cons x)

theorem all_some_decomp {l : List (Option String)} (h : ∀ x ∈ l, x ≠ none) :
    ∃ l0 : List String, l = l0.map some := by
  induction l with
  | nil => exact ⟨[], rfl⟩
  | cons x xs ih =>
    rcases ih (fun y hy => h y (List.mem_cons_of_mem _ hy)) with ⟨xs0, rfl⟩
    cases x with
    | none => exact absurd rfl (h none (List.mem_cons_self _ _))
    | some a => exact ⟨a :: xs0, rfl⟩

theorem pySorted_mixed {l : List (Option String)} (hnone : none ∈ l)
    (hsome : ∃ s, some s ∈ l) : pySorted l = none := by
  induction l with
  | nil => cases hnone
  | cons x xs ih =>
    rw [pySorted]
    rcases hsome with ⟨s, hs⟩
    by_cases hxs_none : none ∈ xs
    · by_cases hxs_some : ∃ s2, some s2 ∈ xs
      · rw [ih hxs_none hxs_some]
        rfl
      · have hx : x = some s := by
          rcases List.mem_cons.mp hs with h | h
          · exact h.symm
          · exact absurd ⟨s, h⟩ hxs_some
        cases hps : pySorted xs with
        | none => rfl
        | some m =>
          have hall : ∀ y ∈ m, y = none := by
            intro y hy
            have hyxs : y ∈ xs := (pySorted_some_perm hps).mem_iff.mp hy
            cases y with
            | none => rfl
            | some s2 => exact absurd ⟨s2, hyxs⟩ hxs_some
          have hmem : none ∈ m := (pySorted_some_perm hps).mem_iff.mpr hxs_none
          obtain ⟨y, m2, rfl⟩ : ∃ y m2, m = y :: m2 := by
            cases m with
            | nil => cases hmem
            | cons y m2 => exact ⟨y, m2, rfl⟩
          rw [Option.some_bind, hx]
          rw [hall y (List.mem_cons_self _ _)]
          rfl
    · have hx : x = none := by
        rcases List.mem_cons.mp hnone with h | h
        · exact h.symm
        · exact absurd h hxs_none
      have hsxs : some s ∈ xs := by
        rcases List.mem_cons.mp hs with h | h
        · rw [hx] at h; cases h
        · exact h
      obtain ⟨xs0, rfl⟩ : ∃ xs0 : List String, xs = xs0.map some := by
        apply all_some_decomp
        intro y hy hyn
        exact hxs_none (hyn ▸ hy)
      rw [pySorted_map_some, Option.some_bind, hx]
      obtain ⟨t0, ht0⟩ : ∃ t0, strSort xs0 = t0 := ⟨_, rfl⟩
      have hne : strSort xs0 ≠ [] := by
        intro hemp
        have hperm := strSort_perm xs0
        rw [hemp] at hperm
        rw [hperm.symm.eq_nil] at hsxs
        cases hsxs
      obtain ⟨h0, t1, heq⟩ : ∃ h0 t1, strSort xs0 = h0 :: t1 := by
        cases hcase : strSort xs0 with
        | nil => exact absurd hcase hne
        | cons h0 t1 => exact ⟨h0, t1, rfl⟩
      rw [heq, List.map_cons]
      rfl

theorem uniqueAux_map_some (seen l : List String) :
    uniqueAux (seen.map some) (l.map some) = (uniqueAux seen l).map some := by
  induction l generalizing seen with
  | nil => rfl
  | cons x xs ih =>
    rw [List.map_cons, uniqueAux, uniqueAux]
    by_cases hx : x ∈ seen
    · rw [if_pos (List.mem_map_of_mem some hx), if_pos hx, ih]
    · have hneg : some x ∉ seen.map some := by
        intro hmem
        rcases List.mem_map.mp hmem with ⟨a, ha, heq⟩
        cases heq
        exact hx ha
      rw [if_neg hneg, if_neg hx, List.map_cons]
      exact congrArg (some x :: ·) (ih (x :: seen))

theorem uniqueList_map_some (l : List String) :
    uniqueList (l.map some) = (uniqueList l).map some :=
  uniqueAux_map_some [] l

theorem type_counts_of_no_match {df : List Record} {s : String}
    (h : ∀ r ∈ df, r.sido ≠ some s) : type_counts df s = [] := by
  have hfil : df.filter (fun r => r.sido == some s) = [] := by
    rw [List.filter_eq_nil_iff]
    intro r hr
    simp only [beq_iff_eq]
    exact h r hr
  rw [type_counts, value_counts, value_counts_pairs, facility_type_col, hfil]
  rfl

theorem type_counts_head_max {df : List Record} {s : String} {h : String × Nat}
    {t : List (String × Nat)} (heq : type_counts df s = h :: t) :
    ∀ p ∈ type_counts df s, p.2 ≤ h.2 := by
  have hpw := type_counts_pairwise df s
  rw [heq] at hpw
  rcases List.pairwise_cons.mp hpw with ⟨hh, _⟩
  intro p hp
  rw [heq] at hp
  rcases List.mem_cons.mp hp with rfl | hp
  · exact le_refl _
  · exact hh p hp

theorem facility_type_col_mem {df : List Record} {s : String} {r : Record}
    (hr : r ∈ df) (hsido : r.sido = some s) {t : String}
    (ht : r.gigwanYuhyeong = some t) : t ∈ facility_type_col df s := by
  rw [facility_type_col]
  refine List.mem_filterMap.mpr ⟨r, ?_, ht⟩
  exact List.mem_filter.mpr ⟨hr, by simp [hsido]⟩

theorem length_filterMap_of_all_some {l : List Record}
    (h : ∀ r ∈ l, r.gigwanYuhyeong ≠ none) :
    (l.filterMap (·.gigwanYuhyeong)).length = l.length := by
  induction l with
  | nil => rfl
  | cons r rs ih =>
    cases hg : r.gigwanYuhyeong with
    | none => exact absurd hg (h r (List.mem_cons_self _ _))
    | some t =>
      have hrs := ih (fun x hx => h x (List.mem_cons_of_mem _ hx))
      simp [List.filterMap_cons, hg, hrs]

theorem colors_tail_getElem {df : List Record} {R : String} {i : Nat}
    (hi : i + 1 < (type_counts df R).length) :
    (colors (type_counts df R))[i + 1]?
      = some ((Blues_r.take ((type_counts df R).length - 1)).getD i "#4c78a8") := by
  obtain ⟨h, t, heq⟩ : ∃ h t, type_counts df R = h :: t := by
    cases hc : type_counts df R with
    | nil => rw [hc] at hi; simp at hi
    | cons h t => exact ⟨h, t, rfl⟩
  have hit : i < t.length := by
    rw [heq] at hi
    simpa using hi
  rw [heq, colors_cons, List.getElem?_cons_succ,
    colorsAux_getElem h.1 (blue_gradient_colors t.length) (tail_keys_ne_head heq) i 0 hit,
    Nat.zero_add, blue_gradient_colors]
  simp

/-- C3: on every non-empty aggregated result the color list contains the
highlight color red exactly once, at the first row, and the first row has
maximal count; no other row ever receives red. -/
theorem C3_unique_red (df : List Record) (R : String)
    (hne : type_counts df R ≠ []) :
    (colors (type_counts df R)).count "red" = 1 ∧
    (colors (type_counts df R))[0]? = some "red" ∧
    ∀ p ∈ type_counts df R, p.2 ≤ ((type_counts df R).headD ("", 0)).2 := by
  obtain ⟨h, t, heq⟩ : ∃ h t, type_counts df R = h :: t := by
    cases hc : type_counts df R with
    | nil => exact absurd hc hne
    | cons h t => exact ⟨h, t, rfl⟩
  have hmax := type_counts_head_max heq
  have hnored : "red" ∉ colorsAux h.1 (blue_gradient_colors t.length) t 0 :=
    red_notMem_colorsAux (blue_gradient_ne_red _) (tail_keys_ne_head heq) 0
  rw [heq, colors_cons]
  refine ⟨?_, by simp, ?_⟩
  · rw [List.count_cons, List.count_eq_zero.mpr hnored]
    simp
  · rw [List.headD_cons]
    intro p hp
    exact hmax p (heq.symm ▸ hp)

/-- C3 witness: the single-type region has exactly one red bar. -/
theorem C3_unique_red_witness :
    (colors (type_counts [⟨some "S", some "A"⟩] "S")).count "red" = 1 ∧
    (colors (type_counts [⟨some "S", some "A"⟩] "S"))[0]? = some "red" ∧
    ∀ p ∈ type_counts [⟨some "S", some "A"⟩] "S",
      p.2 ≤ ((type_counts [⟨some "S", some "A"⟩] "S").headD ("", 0)).2 :=
  C3_unique_red [⟨some "S", some "A"⟩] "S" (by decide)

/-- C4: over a dataset of well-formed records (the spec's data model) the
per-type counts of a region sum to the number of records of that region. -/
theorem C4_count_sum (df : List Record) (R : String) (hwf : WellFormed df) :
    ((type_counts df R).map (·.2)).sum
      = (df.filter (fun r => r.sido == some R)).length := by
  rw [sum_snd_type_counts, facility_type_col]
  exact length_filterMap_of_all_some
    (fun r hr => (hwf r (List.mem_of_mem_filter hr)).2)

/-- C4 witness at a concrete mixed-region dataset. -/
theorem C4_count_sum_witness :
    ((type_counts
        [⟨some "S", some "A"⟩, ⟨some "S", some "B"⟩, ⟨some "S", some "A"⟩,
         ⟨some "B", some "C"⟩] "S").map (·.2)).sum
      = ([⟨some "S", some "A"⟩, ⟨some "S", some "B"⟩, ⟨some "S", some "A"⟩,
          (⟨some "B", some "C"⟩ : Record)].filter
            (fun r => r.sido == some "S")).length :=
  C4_count_sum _ "S" (by decide)

/-- C5 counterexample: two types of equal count first appearing in the
order "B", "A" stay in that order, so equal counts are not ordered by
facility-type name ascending as claimed. -/
theorem C5_counterexample :
    ¬ List.Pairwise (fun p q : String × Nat => p.2 = q.2 → p.1 ≤ q.1)
        (type_counts [⟨some "S", some "B"⟩, ⟨some "S", some "A"⟩] "S") := by
  intro hpw
  have heval : type_counts [⟨some "S", some "B"⟩, ⟨some "S", some "A"⟩] "S"
      = [("B", 1), ("A", 1)] := by decide
  rw [heval] at hpw
  rcases List.pairwise_cons.mp hpw with ⟨hh, _⟩
  have hba : ("B" : String) ≤ "A" := hh ("A", 1) (List.mem_cons_self _ _) rfl
  have hlt : ("A" : String).data < ("B" : String).data := by decide
  exact absurd ((str_lt_iff _ _).mp hlt) (not_lt.mpr hba)

/-- C5 (amended): the result is sorted descending by count, and rows of
equal count keep the relative order in which the counting step emits them,
namely the order of each type's first appearance among the region's
records; the pipeline is a pure function, hence deterministic and stable
across repeated calls. -/
theorem C5_amended (df : List Record) (R : String) :
    List.Pairwise (fun p q : String × Nat => q.2 ≤ p.2) (type_counts df R) ∧
    ∀ c : Nat, (type_counts df R).filter (fun p => p.2 == c)
      = (value_counts_pairs df R).filter (fun p => p.2 == c) :=
  ⟨type_counts_pairwise df R, fun c => type_counts_filter df R c⟩

/-- C7: a region with no matching record (unknown region or empty dataset)
yields an empty aggregation, an empty color list, and the warning no-data
state; every step is total, so nothing is raised. -/
theorem C7_no_data (df : List Record) (R : String)
    (h : ∀ r ∈ df, r.sido ≠ some R) :
    type_counts df R = [] ∧ colors (type_counts df R) = [] ∧
      render df R = PageOutput.noData := by
  have htc := type_counts_of_no_match h
  refine ⟨htc, ?_, ?_⟩
  · rw [htc]
    rfl
  · simp [render, htc]

/-- C7 witness: an unknown region over a one-record dataset. -/
theorem C7_no_data_witness :
    type_counts [⟨some "B", some "H"⟩] "S" = [] ∧
    colors (type_counts [⟨some "B", some "H"⟩] "S") = [] ∧
    render [⟨some "B", some "H"⟩] "S" = PageOutput.noData :=
  C7_no_data [⟨some "B", some "H"⟩] "S" (by decide)

theorem getD_take {l : List String} {n i : Nat} (hin : i < n) (d : String) :
    (l.take n).getD i d = l.getD i d := by
  by_cases hil : i < l.length
  · have h1 : i < (l.take n).length := by
      rw [List.length_take]
      exact lt_min hin hil
    rw [List.getD_eq_getElem _ _ h1, List.getD_eq_getElem _ _ hil]
    exact List.getElem_take l
  · have h2 : l.length ≤ i := Nat.le_of_not_lt hil
    have h3 : (l.take n).length ≤ i := by
      rw [List.length_take]
      exact le_trans (min_le_right _ _) h2
    rw [List.getD_eq_default _ _ h3, List.getD_eq_default _ _ h2]

theorem sum_map_ratio (l : List (String × Nat)) (T : ℚ) :
    (l.map (fun p => 100 * (p.2 : ℚ) / T)).sum
      = 100 * (((l.map (·.2)).sum : ℕ) : ℚ) / T := by
  induction l with
  | nil => simp
  | cons p l ih =>
    simp only [List.map_cons, List.sum_cons, ih]
    push_cast
    ring

/-- C1: for a dataset of well-formed records and a region with at least
one record, every aggregated row carries the precise percentage
`100 * count / totalForRegion` with the 2-decimal rounding kept in a
separate display field (the precise value used for ordering is not
mutated), and the precise percentages sum to exactly 100, hence to
approximately 100.0. The percentage fields are modelled from the spec, as
the page under `src` computes none. -/
theorem C1_percentages (df : List Record) (R : String) (hwf : WellFormed df)
    (hne : ∃ r ∈ df, r.sido = some R) :
    ((aggregate df R).map (·.percentageOfRegion)).sum = 100 ∧
      ∀ row ∈ aggregate df R,
        row.percentageOfRegion = 100 * (row.count : ℚ) / (totalForRegion df R : ℚ) ∧
        row.roundedPercentage = roundTo2 row.percentageOfRegion := by
  have hpos : 0 < totalForRegion df R := by
    rcases hne with ⟨r, hr, hsido⟩
    cases hg : r.gigwanYuhyeong with
    | none => exact absurd hg (hwf r hr).2
    | some t =>
      have hmem := facility_type_col_mem hr hsido hg
      rw [totalForRegion, sum_snd_type_counts]
      exact List.length_pos.mpr (List.ne_nil_of_mem hmem)
  have hTne : ((totalForRegion df R : ℚ)) ≠ 0 := by
    have hz : totalForRegion df R ≠ 0 := by omega
    exact_mod_cast hz
  constructor
  · rw [aggregate, List.map_map]
    show ((type_counts df R).map
      (fun p => 100 * (p.2 : ℚ) / (totalForRegion df R : ℚ))).sum = 100
    rw [sum_map_ratio]
    show 100 * ((totalForRegion df R : ℕ) : ℚ) / (totalForRegion df R : ℚ) = 100
    rw [mul_div_assoc, div_self hTne, mul_one]
  · intro row hrow
    rcases List.mem_map.mp hrow with ⟨p, _, rfl⟩
    exact ⟨rfl, rfl⟩

/-- C1 witness at a three-record region. -/
theorem C1_percentages_witness :
    ((aggregate [⟨some "S", some "A"⟩, ⟨some "S", some "B"⟩,
        ⟨some "S", some "B"⟩] "S").map (·.percentageOfRegion)).sum = 100 ∧
      ∀ row ∈ aggregate [⟨some "S", some "A"⟩, ⟨some "S", some "B"⟩,
          ⟨some "S", some "B"⟩] "S",
        row.percentageOfRegion = 100 * (row.count : ℚ)
          / (totalForRegion [⟨some "S", some "A"⟩, ⟨some "S", some "B"⟩,
              ⟨some "S", some "B"⟩] "S" : ℚ) ∧
        row.roundedPercentage = roundTo2 row.percentageOfRegion :=
  C1_percentages _ "S" (by decide) (by decide)

/-- C2 counterexample: with three aggregated rows the code gives the
non-maximum row at position i = 1 the palette entry at index 1, while the
claimed even-sampling formula demands index round(1*(9-1)/(3-2)) = 8, and
those palette entries are different colors. -/
theorem C2_counterexample :
    (colors (type_counts
        [⟨some "S", some "A"⟩, ⟨some "S", some "A"⟩, ⟨some "S", some "A"⟩,
         ⟨some "S", some "B"⟩, ⟨some "S", some "B"⟩, ⟨some "S", some "C"⟩] "S"))[2]?
      = some "rgb(8,81,156)" ∧
    spec_palette_index 1 Blues_r.length 3 = 8 ∧
    Blues_r[8]? = some "rgb(247,251,255)" ∧
    ("rgb(8,81,156)" : String) ≠ "rgb(247,251,255)" := by
  refine ⟨by decide, ?_, by decide, by decide⟩
  rw [spec_palette_index, show Blues_r.length = 9 from rfl]
  norm_num

/-- C2 (amended): the non-maximum row at 0-indexed position i (row i+1 of
the sorted result) receives the palette entry at index i when
i < paletteLength and the fixed fallback color otherwise; in particular a
single remaining row receives palette index 0. -/
theorem C2_amended (df : List Record) (R : String) (i : Nat)
    (hi : i + 1 < (type_counts df R).length) :
    (colors (type_counts df R))[i + 1]?
      = some (if i < Blues_r.length then Blues_r.getD i "#4c78a8"
              else "#4c78a8") := by
  rw [colors_tail_getElem hi]
  congr 1
  by_cases hib : i < Blues_r.length
  · rw [if_pos hib]
    apply getD_take
    omega
  · rw [if_neg hib]
    apply List.getD_eq_default
    rw [List.length_take]
    exact le_trans (min_le_right _ _) (Nat.le_of_not_lt hib)

/-- C2 witness: the single non-maximum row receives palette index 0. -/
theorem C2_amended_witness :
    (colors (type_counts [⟨some "S", some "A"⟩, ⟨some "S", some "A"⟩,
        ⟨some "S", some "B"⟩] "S"))[0 + 1]?
      = some (if 0 < Blues_r.length then Blues_r.getD 0 "#4c78a8"
              else "#4c78a8") :=
  C2_amended _ "S" 0 (by decide)

/-- C6 counterexample: with 10 non-maximum rows and a 9-color palette the
row at position 10 receives the fallback color, which is not a palette
entry, so not every non-maximum row is colored from the palette. -/
theorem C6_counterexample :
    (colors (type_counts
        [⟨some "S", some "A"⟩, ⟨some "S", some "A"⟩, ⟨some "S", some "B"⟩,
         ⟨some "S", some "C"⟩, ⟨some "S", some "D"⟩, ⟨some "S", some "E"⟩,
         ⟨some "S", some "F"⟩, ⟨some "S", some "G"⟩, ⟨some "S", some "H"⟩,
         ⟨some "S", some "I"⟩, ⟨some "S", some "J"⟩, ⟨some "S", some "K"⟩]
        "S"))[10]? = some "#4c78a8" ∧
    "#4c78a8" ∉ Blues_r := ⟨by decide, by decide⟩

/-- C6 (amended): every bar color is the highlight red, an in-range
palette entry, or the fixed fallback color once the palette prefix is
exhausted; the guarded access never reads outside the palette. -/
theorem C6_amended (df : List Record) (R : String) (c : String)
    (hc : c ∈ colors (type_counts df R)) :
    c = "red" ∨ c ∈ Blues_r ∨ c = "#4c78a8" := by
  rw [colors] at hc
  rcases colorsAux_mem hc with h | h | h
  · exact Or.inl h
  · rw [blue_gradient_colors] at h
    exact Or.inr (Or.inl (List.mem_of_mem_take h))
  · exact Or.inr (Or.inr h)

/-- C6 witness: the highlight color of a one-row result. -/
theorem C6_amended_witness :
    ("red" : String) = "red" ∨ ("red" : String) ∈ Blues_r ∨
      ("red" : String) = "#4c78a8" :=
  C6_amended [⟨some "S", some "A"⟩] "S" "red" (by decide)

/-- C8: when every region cell holds a string, the region listing
succeeds and returns each distinct region exactly once, sorted ascending
lexicographically (code-point order, as Python compares strings). -/
theorem C8_listRegions (df : List Record) (h : ∀ r ∈ df, r.sido ≠ none) :
    ∃ L : List String,
      all_sidos df = some (L.map some) ∧ L.Nodup ∧
      List.Pairwise (· ≤ ·) L ∧
      ∀ s : String, s ∈ L ↔ (∃ r ∈ df, r.sido = some s) := by
  obtain ⟨l0, hl0⟩ : ∃ l0 : List String, df.map (·.sido) = l0.map some := by
    apply all_some_decomp
    intro x hx
    rcases List.mem_map.mp hx with ⟨r, hr, rfl⟩
    exact h r hr
  refine ⟨strSort (uniqueList l0), ?_, ?_, strSort_pairwise _, ?_⟩
  · rw [all_sidos, hl0, uniqueList_map_some, pySorted_map_some]
  · exact ((strSort_perm (uniqueList l0)).nodup_iff).mpr (nodup_uniqueList l0)
  · intro s
    rw [(strSort_perm (uniqueList l0)).mem_iff, mem_uniqueList]
    constructor
    · intro hs
      have hmem : some s ∈ l0.map some := List.mem_map_of_mem some hs
      rw [← hl0] at hmem
      rcases List.mem_map.mp hmem with ⟨r, hr, heq⟩
      exact ⟨r, hr, heq⟩
    · rintro ⟨r, hr, heq⟩
      have hmem : some s ∈ df.map (·.sido) := by
        rw [← heq]
        exact List.mem_map_of_mem (·.sido) hr
      rw [hl0] at hmem
      rcases List.mem_map.mp hmem with ⟨a, ha, haeq⟩
      cases haeq
      exact ha

/-- C8 witness: duplicate regions appear once, sorted. -/
theorem C8_listRegions_witness :
    ∃ L : List String,
      all_sidos [⟨some "B", some "X"⟩, ⟨some "A", some "Y"⟩,
        ⟨some "B", some "Z"⟩] = some (L.map some) ∧ L.Nodup ∧
      List.Pairwise (· ≤ ·) L ∧
      ∀ s : String, s ∈ L ↔ (∃ r ∈ ([⟨some "B", some "X"⟩, ⟨some "A", some "Y"⟩,
        ⟨some "B", some "Z"⟩] : List Record), r.sido = some s) :=
  C8_listRegions _ (by decide)

/-- C9 counterexample: a dataset whose only region cell is missing — a NaN
is present, yet the sort succeeds (no string/float comparison happens), so
neither does every missing value raise TypeError, nor is the listing total
only on all-string columns. -/
theorem C9_counterexample :
    (∃ r ∈ ([⟨none, some "H"⟩] : List Record), r.sido = none) ∧
    all_sidos [⟨none, some "H"⟩] ≠ none :=
  ⟨⟨⟨none, some "H"⟩, List.mem_cons_self _ _, rfl⟩, by decide⟩

/-- C9 (amended): when the region column holds both a missing value and at
least one string, the region-listing sort raises TypeError (modelled as
`none`) instead of dropping the malformed row. -/
theorem C9_amended (df : List Record)
    (hnan : ∃ r ∈ df, r.sido = none)
    (hstr : ∃ r ∈ df, r.sido ≠ none) :
    all_sidos df = none := by
  rw [all_sidos]
  apply pySorted_mixed
  · rcases hnan with ⟨r, hr, hs⟩
    exact mem_uniqueList.mpr (List.mem_map.mpr ⟨r, hr, hs⟩)
  · rcases hstr with ⟨r, hr, hs⟩
    cases hsido : r.sido with
    | none => exact absurd hsido hs
    | some s =>
      exact ⟨s, mem_uniqueList.mpr (List.mem_map.mpr ⟨r, hr, hsido⟩)⟩

/-- C9 witness: one missing and one string region value raise TypeError. -/
theorem C9_amended_witness :
    all_sidos [⟨none, some "H"⟩, ⟨some "S", some "C"⟩] = none :=
  C9_amended _ (by decide) (by decide)

/-- C10 counterexample: with 10 non-maximum rows (one more than the
palette) exactly one row overflows, and the non-highlight colors are still
pairwise distinct, contrary to the claim. -/
theorem C10_counterexample :
    Blues_r.length < (type_counts
        [⟨some "S", some "A"⟩, ⟨some "S", some "A"⟩, ⟨some "S", some "B"⟩,
         ⟨some "S", some "C"⟩, ⟨some "S", some "D"⟩, ⟨some "S", some "E"⟩,
         ⟨some "S", some "F"⟩, ⟨some "S", some "G"⟩, ⟨some "S", some "H"⟩,
         ⟨some "S", some "I"⟩, ⟨some "S", some "J"⟩, ⟨some "S", some "K"⟩]
        "S").length - 1 ∧
    ((colors (type_counts
        [⟨some "S", some "A"⟩, ⟨some "S", some "A"⟩, ⟨some "S", some "B"⟩,
         ⟨some "S", some "C"⟩, ⟨some "S", some "D"⟩, ⟨some "S", some "E"⟩,
         ⟨some "S", some "F"⟩, ⟨some "S", some "G"⟩, ⟨some "S", some "H"⟩,
         ⟨some "S", some "I"⟩, ⟨some "S", some "J"⟩, ⟨some "S", some "K"⟩]
        "S")).tail).Nodup :=
  ⟨by decide, by decide⟩

/-- C10 (amended): there is exactly one color per aggregated row; every
overflow row (position beyond the palette) receives the same fixed
fallback color; and as soon as at least two rows overflow (at least
paletteLength + 2 non-maximum rows) the non-highlight colors are no
longer pairwise distinct. -/
theorem C10_amended (df : List Record) (R : String) :
    (colors (type_counts df R)).length = (type_counts df R).length ∧
    (∀ i, i + 1 < (type_counts df R).length → Blues_r.length ≤ i →
      (colors (type_counts df R))[i + 1]? = some "#4c78a8") ∧
    (Blues_r.length + 3 ≤ (type_counts df R).length →
      ¬ ((colors (type_counts df R)).tail).Nodup) := by
  have hlen : (colors (type_counts df R)).length = (type_counts df R).length := by
    rw [colors, colorsAux_length]
  have hover : ∀ i, i + 1 < (type_counts df R).length → Blues_r.length ≤ i →
      (colors (type_counts df R))[i + 1]? = some "#4c78a8" := by
    intro i hi hBi
    rw [colors_tail_getElem hi]
    congr 1
    apply List.getD_eq_default
    rw [List.length_take]
    exact le_trans (min_le_right _ _) hBi
  refine ⟨hlen, hover, ?_⟩
  intro hbig hnd
  have hB : Blues_r.length = 9 := rfl
  have e9 : ((colors (type_counts df R)).tail)[9]? = some "#4c78a8" := by
    rw [List.getElem?_tail]
    exact hover 9 (by omega) (by omega)
  have e10 : ((colors (type_counts df R)).tail)[10]? = some "#4c78a8" := by
    rw [List.getElem?_tail]
    exact hover 10 (by omega) (by omega)
  have h9len : 9 < ((colors (type_counts df R)).tail).length := by
    rw [List.length_tail, hlen]
    omega
  have h910 : (9 : Nat) = 10 := List.getElem?_inj h9len hnd (by rw [e9, e10])
  exact absurd h910 (by decide)

/-- C10 witness: 11 non-maximum rows give two overflow rows, a color per
row, and duplicated non-highlight colors. -/
theorem C10_amended_witness :
    (colors (type_counts
        [⟨some "S", some "A"⟩, ⟨some "S", some "A"⟩, ⟨some "S", some "B"⟩,
         ⟨some "S", some "C"⟩, ⟨some "S", some "D"⟩, ⟨some "S", some "E"⟩,
         ⟨some "S", some "F"⟩, ⟨some "S", some "G"⟩, ⟨some "S", some "H"⟩,
         ⟨some "S", some "I"⟩, ⟨some "S", some "J"⟩, ⟨some "S", some "K"⟩,
         ⟨some "S", some "L"⟩] "S")).length
      = (type_counts
        [⟨some "S", some "A"⟩, ⟨some "S", some "A"⟩, ⟨some "S", some "B"⟩,
         ⟨some "S", some "C"⟩, ⟨some "S", some "D"⟩, ⟨some "S", some "E"⟩,
         ⟨some "S", some "F"⟩, ⟨some "S", some "G"⟩, ⟨some "S", some "H"⟩,
         ⟨some "S", some "I"⟩, ⟨some "S", some "J"⟩, ⟨some "S", some "K"⟩,
         ⟨some "S", some "L"⟩] "S").length ∧
    (colors (type_counts
        [⟨some "S", some "A"⟩, ⟨some "S", some "A"⟩, ⟨some "S", some "B"⟩,
         ⟨some "S", some "C"⟩, ⟨some "S", some "D"⟩, ⟨some "S", some "E"⟩,
         ⟨some "S", some "F"⟩, ⟨some "S", some "G"⟩, ⟨some "S", some "H"⟩,
         ⟨some "S", some "I"⟩, ⟨some "S", some "J"⟩, ⟨some "S", some "K"⟩,
         ⟨some "S", some "L"⟩] "S"))[9 + 1]? = some "#4c78a8" ∧
    ¬ ((colors (type_counts
        [⟨some "S", some "A"⟩, ⟨some "S", some "A"⟩, ⟨some "S", some "B"⟩,
         ⟨some "S", some "C"⟩, ⟨some "S", some "D"⟩, ⟨some "S", some "E"⟩,
         ⟨some "S", some "F"⟩, ⟨some "S", some "G"⟩, ⟨some "S", some "H"⟩,
         ⟨some "S", some "I"⟩, ⟨some "S", some "J"⟩, ⟨some "S", some "K"⟩,
         ⟨some "S", some "L"⟩] "S")).tail).Nodup := by
  refine ⟨(C10_amended _ "S").1, (C10_amended _ "S").2.1 9 (by decide) (by decide),
    (C10_amended _ "S").2.2 (by decide)⟩

theorem sanity_type_counts :
    type_counts
      [⟨some "S", some "A"⟩, ⟨some "S", some "A"⟩, ⟨some "S", some "B"⟩,
       ⟨some "B", some "C"⟩] "S" = [("A", 2), ("B", 1)] := by
  decide

theorem sanity_colors :
    colors [("A", 2), ("B", 1)] = ["red", "rgb(8,48,107)"] := by
  decide

theorem sanity_all_sidos :
    all_sidos [⟨some "B", some "X"⟩, ⟨some "A", some "Y"⟩, ⟨some "B", some "Z"⟩]
      = some [some "A", some "B"] := by
  decide

end Dashboard
